import Mathlib

/-!
Verification of the cosave codec in `Mopy/bash/bosh/cosaves.py`.

The embedding models byte streams as `List Nat` (each element a byte value,
`< 256` where a theorem needs it).  Multi-byte integers are little endian, as
in the source's `struct` format strings (`=I`, `=H`, `=B`).

Collaborator functions from `bolt` (not part of the analysed sources) are
modelled from the spec where used: `unpack_int` / `unpack_short` /
`unpack_byte` / `unpack_4s` / `unpack_str16` read exactly N bytes or fail
with a truncation error (spec section 4.1).  Plain Python stream reads
(`ins.read(n)`), which silently return fewer bytes at end of stream, are
modelled as `List.take`.  The text codec (`decode` / `encode`) is a black-box
collaborator with a round-trip law, collapsed to the identity on byte
strings; the `GPath` case-insensitive normalisation (and the `.cs`
case-folded form) is modelled by an abstract `fold` function.
-/

namespace Cosaves

/-- Little-endian value of a byte list (least significant byte first). -/
def leVal : List Nat → Nat
  | [] => 0
  | b :: bs => b + 256 * leVal bs

/-- 2-byte little-endian encoding of `n` (struct format `=H`). -/
def u16le (n : Nat) : List Nat := [n % 256, n / 256 % 256]

/-- 4-byte little-endian encoding of `n` (struct format `=I`). -/
def u32le (n : Nat) : List Nat :=
  [n % 256, n / 256 % 256, n / 2 ^ 16 % 256, n / 2 ^ 24 % 256]

theorem leVal_u16le (n : Nat) (h : n < 2 ^ 16) : leVal (u16le n) = n := by
  simp only [u16le, leVal]
  omega

theorem leVal_u32le (n : Nat) (h : n < 2 ^ 32) : leVal (u32le n) = n := by
  simp only [u32le, leVal]
  omega

theorem u16le_leVal (a b : Nat) (ha : a < 256) (hb : b < 256) :
    u16le (leVal [a, b]) = [a, b] := by
  simp only [u16le, leVal, List.cons.injEq, and_true]
  omega

theorem u32le_leVal (a b c d : Nat) (ha : a < 256) (hb : b < 256) (hc : c < 256)
    (hd : d < 256) : u32le (leVal [a, b, c, d]) = [a, b, c, d] := by
  simp only [u32le, leVal, List.cons.injEq, and_true]
  omega

theorem u16le_length (n : Nat) : (u16le n).length = 2 := rfl

theorem u32le_length (n : Nat) : (u32le n).length = 4 := rfl

theorem leVal_lt (bs : List Nat) (h : ∀ x ∈ bs, x < 256) :
    leVal bs < 256 ^ bs.length := by
  induction bs with
  | nil => simp [leVal]
  | cons b bs ih =>
    simp only [leVal, List.length_cons]
    have hb : b < 256 := h b (by simp)
    have := ih (fun x hx => h x (by simp [hx]))
    calc b + 256 * leVal bs < 256 + 256 * leVal bs := by omega
    _ = 256 * (leVal bs + 1) := by ring
    _ ≤ 256 * 256 ^ bs.length := by
        have : leVal bs + 1 ≤ 256 ^ bs.length := this
        exact Nat.mul_le_mul_left _ this
    _ = 256 ^ (bs.length + 1) := by ring

/-! ### CRC-32 (binascii.crc32, used by `PluggyFile.load` / `PluggyFile.save`)

`binascii.crc32` is the standard reflected CRC-32.  We model its unsigned
32-bit value; the source stores/compares it through signed `=i` packing,
which is a bijection on 32-bit values, so equality of the signed values
is equality of the unsigned ones. -/

/-- CRC-32 generator polynomial, reflected form (zlib / binascii). -/
def crcPoly : Nat := 0xEDB88320

/-- One bit step of the reflected CRC-32 computation. -/
def crcStep1 (v : Nat) : Nat := if v % 2 = 1 then v / 2 ^^^ crcPoly else v / 2

/-- Entry `n` of the reflected CRC-32 table: eight bit steps applied to `n`. -/
def crcTableEntry (n : Nat) : Nat :=
  crcStep1 (crcStep1 (crcStep1 (crcStep1 (crcStep1 (crcStep1 (crcStep1 (crcStep1 n)))))))

/-- One byte step of CRC-32. -/
def crcByteStep (c b : Nat) : Nat := c / 256 ^^^ crcTableEntry ((c ^^^ b) % 256)

/-- `binascii.crc32` over a byte list, as an unsigned 32-bit value. -/
def crc32 (bs : List Nat) : Nat := bs.foldl crcByteStep 0xFFFFFFFF ^^^ 0xFFFFFFFF

theorem xor_shiftRight (a b k : Nat) : (a ^^^ b) >>> k = a >>> k ^^^ b >>> k := by
  apply Nat.eq_of_testBit_eq
  intro i
  simp [Nat.testBit_shiftRight, Nat.testBit_xor]

theorem xor_mod_two_pow (a b k : Nat) :
    (a ^^^ b) % 2 ^ k = a % 2 ^ k ^^^ b % 2 ^ k := by
  apply Nat.eq_of_testBit_eq
  intro i
  simp [Nat.testBit_mod_two_pow, Nat.testBit_xor, Bool.and_xor_distrib_left]

theorem xor_div_two (a b : Nat) : (a ^^^ b) / 2 = a / 2 ^^^ b / 2 := by
  have h := xor_shiftRight a b 1
  simpa [Nat.shiftRight_eq_div_pow] using h

theorem xor_mod_two (a b : Nat) : (a ^^^ b) % 2 = a % 2 ^^^ b % 2 := by
  have h := xor_mod_two_pow a b 1
  simpa using h

theorem xor_left_comm (a b c : Nat) : a ^^^ (b ^^^ c) = b ^^^ (a ^^^ c) := by
  rw [← Nat.xor_assoc, Nat.xor_comm a b, Nat.xor_assoc]

theorem crcStep1_linear (a b : Nat) :
    crcStep1 (a ^^^ b) = crcStep1 a ^^^ crcStep1 b := by
  unfold crcStep1
  rcases Nat.mod_two_eq_zero_or_one a with ha | ha <;>
    rcases Nat.mod_two_eq_zero_or_one b with hb | hb <;>
      rw [xor_mod_two, ha, hb] <;>
        simp [xor_div_two, Nat.xor_assoc, Nat.xor_comm, xor_left_comm,
          Nat.xor_cancel_left]

theorem crcTableEntry_linear (a b : Nat) :
    crcTableEntry (a ^^^ b) = crcTableEntry a ^^^ crcTableEntry b := by
  simp [crcTableEntry, crcStep1_linear]

set_option maxRecDepth 8192 in
/-- The top byte of a nonzero table entry is nonzero (checked exhaustively). -/
theorem crcTableEntry_top_ne_zero :
    ∀ n : Fin 256, n.val ≠ 0 → crcTableEntry n.val >>> 24 ≠ 0 := by decide

theorem crcTop_inj (i j : Nat) (hi : i < 256) (hj : j < 256)
    (h : crcTableEntry i >>> 24 = crcTableEntry j >>> 24) : i = j := by
  have hx : crcTableEntry (i ^^^ j) >>> 24 = 0 := by
    rw [crcTableEntry_linear, xor_shiftRight, h, Nat.xor_self]
  have hlt : i ^^^ j < 256 := by
    have := Nat.xor_lt_two_pow (n := 8) (by simpa using hi) (by simpa using hj)
    simpa using this
  by_contra hne
  have hne2 : i ^^^ j ≠ 0 := fun h0 => hne (Nat.xor_eq_zero.mp h0)
  exact crcTableEntry_top_ne_zero ⟨i ^^^ j, hlt⟩ hne2 hx

theorem crcStep1_lt (v : Nat) (h : v < 2 ^ 32) : crcStep1 v < 2 ^ 32 := by
  unfold crcStep1
  have hdiv : v / 2 < 2 ^ 32 := Nat.lt_of_le_of_lt (Nat.div_le_self v 2) h
  split
  · exact Nat.xor_lt_two_pow hdiv (by norm_num [crcPoly])
  · exact hdiv

theorem crcTableEntry_lt (n : Nat) (h : n < 2 ^ 32) : crcTableEntry n < 2 ^ 32 := by
  unfold crcTableEntry
  iterate 8 apply crcStep1_lt
  exact h

theorem crcByteStep_lt (c b : Nat) (h : c < 2 ^ 32) : crcByteStep c b < 2 ^ 32 := by
  unfold crcByteStep
  have h1 : c / 256 < 2 ^ 32 := Nat.lt_of_le_of_lt (Nat.div_le_self c 256) h
  have h2 : (c ^^^ b) % 256 < 2 ^ 32 := by
    have := Nat.mod_lt (c ^^^ b) (y := 256) (by norm_num)
    omega
  exact Nat.xor_lt_two_pow h1 (crcTableEntry_lt _ h2)

theorem xor_lt_256 (a b : Nat) (ha : a < 256) (hb : b < 256) : a ^^^ b < 256 := by
  have := Nat.xor_lt_two_pow (n := 8) (by simpa using ha) (by simpa using hb)
  simpa using this

theorem shiftRight24_eq_zero (m : Nat) (hm : m < 2 ^ 24) : m >>> 24 = 0 := by
  rw [Nat.shiftRight_eq_div_pow]
  exact Nat.div_eq_of_lt hm

theorem crcByteStep_inj (c c' b : Nat) (hc : c < 2 ^ 32) (hc' : c' < 2 ^ 32)
    (hb : b < 256) (h : crcByteStep c b = crcByteStep c' b) : c = c' := by
  unfold crcByteStep at h
  have hidx : ∀ x : Nat, (x ^^^ b) % 256 = x % 256 ^^^ b := by
    intro x
    have h1 := xor_mod_two_pow x b 8
    norm_num at h1
    rw [h1, Nat.mod_eq_of_lt hb]
  rw [hidx c, hidx c'] at h
  have hi : c % 256 ^^^ b < 256 := xor_lt_256 _ _ (Nat.mod_lt c (by norm_num)) hb
  have hi' : c' % 256 ^^^ b < 256 := xor_lt_256 _ _ (Nat.mod_lt c' (by norm_num)) hb
  have hhi : c / 256 < 2 ^ 24 := by omega
  have hhi' : c' / 256 < 2 ^ 24 := by omega
  have htop : crcTableEntry (c % 256 ^^^ b) >>> 24 =
      crcTableEntry (c' % 256 ^^^ b) >>> 24 := by
    have h24 := congrArg (fun x => x >>> 24) h
    simp only [xor_shiftRight] at h24
    rw [shiftRight24_eq_zero _ hhi, shiftRight24_eq_zero _ hhi'] at h24
    simpa using h24
  have hii := crcTop_inj _ _ hi hi' htop
  rw [hii] at h
  have hhid : c / 256 = c' / 256 := by
    have h2 := congrArg (fun x => x ^^^ crcTableEntry (c' % 256 ^^^ b)) h
    simpa [Nat.xor_cancel_right] using h2
  have hlo : c % 256 = c' % 256 := by
    have h2 := congrArg (fun x => x ^^^ b) hii
    simpa [Nat.xor_cancel_right] using h2
  omega

theorem crcByteStep_byte_ne (c b b' : Nat) (hb : b < 256) (hb' : b' < 256)
    (hne : b ≠ b') : crcByteStep c b ≠ crcByteStep c b' := by
  intro h
  unfold crcByteStep at h
  have hidx : ∀ x : Nat, x < 256 → (c ^^^ x) % 256 = c % 256 ^^^ x := by
    intro x hx
    have h1 := xor_mod_two_pow c x 8
    norm_num at h1
    rw [h1, Nat.mod_eq_of_lt hx]
  rw [hidx b hb, hidx b' hb'] at h
  have hT : crcTableEntry (c % 256 ^^^ b) = crcTableEntry (c % 256 ^^^ b') :=
    (Nat.xor_right_inj).mp h
  have hlt : ∀ x : Nat, x < 256 → c % 256 ^^^ x < 256 := fun x hx =>
    xor_lt_256 _ _ (Nat.mod_lt c (by norm_num)) hx
  have := crcTop_inj _ _ (hlt b hb) (hlt b' hb') (by rw [hT])
  exact hne ((Nat.xor_right_inj).mp this)

theorem crcFoldl_lt (l : List Nat) (c : Nat) (hc : c < 2 ^ 32) :
    l.foldl crcByteStep c < 2 ^ 32 := by
  induction l generalizing c with
  | nil => simpa using hc
  | cons b l ih => exact ih _ (crcByteStep_lt c b hc)

theorem crcFoldl_inj (l : List Nat) (c c' : Nat) (hl : ∀ x ∈ l, x < 256)
    (hc : c < 2 ^ 32) (hc' : c' < 2 ^ 32) (hne : c ≠ c') :
    l.foldl crcByteStep c ≠ l.foldl crcByteStep c' := by
  induction l generalizing c c' with
  | nil => simpa using hne
  | cons b l ih =>
    simp only [List.foldl_cons]
    have hb : b < 256 := hl b (by simp)
    exact ih _ _ (fun x hx => hl x (by simp [hx]))
      (crcByteStep_lt c b hc) (crcByteStep_lt c' b hc')
      (fun h => hne (crcByteStep_inj c c' b hc hc' hb h))

/-- Changing one byte of a list always changes its CRC-32. -/
theorem crc32_flip_ne (p s : List Nat) (x x' : Nat)
    (hs : ∀ y ∈ s, y < 256)
    (hx : x < 256) (hx' : x' < 256) (hne : x ≠ x') :
    crc32 (p ++ x :: s) ≠ crc32 (p ++ x' :: s) := by
  unfold crc32
  intro h
  have h2 : (p ++ x :: s).foldl crcByteStep 0xFFFFFFFF =
      (p ++ x' :: s).foldl crcByteStep 0xFFFFFFFF := by
    have := congrArg (fun v => v ^^^ 0xFFFFFFFF) h
    simpa [Nat.xor_cancel_right] using this
  rw [List.foldl_append, List.foldl_append] at h2
  simp only [List.foldl_cons] at h2
  have hcp : p.foldl crcByteStep 0xFFFFFFFF < 2 ^ 32 :=
    crcFoldl_lt p _ (by norm_num)
  exact crcFoldl_inj s _ _ hs
    (crcByteStep_lt _ x hcp) (crcByteStep_lt _ x' hcp)
    (crcByteStep_byte_ne _ x x' hx hx' hne) h2

/-- Setting position `i` of a byte list to a different byte changes its CRC-32. -/
theorem crc32_set_ne (bs : List Nat) (i b' : Nat) (hi : i < bs.length)
    (hbs : ∀ y ∈ bs, y < 256) (hb' : b' < 256) (hne : b' ≠ bs.getD i 0) :
    crc32 (bs.set i b') ≠ crc32 bs := by
  have hset : bs.set i b' = bs.take i ++ b' :: bs.drop (i + 1) :=
    List.set_eq_take_cons_drop b' hi
  have horig : bs = bs.take i ++ bs.getD i 0 :: bs.drop (i + 1) := by
    conv_lhs => rw [← List.take_append_drop i bs]
    rw [List.drop_eq_getElem_cons hi, List.getD_eq_getElem bs 0 hi]
  rw [hset]
  conv_rhs => rw [horig]
  exact crc32_flip_ne _ _ _ _
    (fun y hy => hbs y (List.mem_of_mem_drop hy))
    hb' (hbs _ (by rw [List.getD_eq_getElem bs 0 hi]; exact List.getElem_mem hi)) hne

/-! ### Typed errors

The source raises `bolt.FileError` for tag / version / checksum /
record-marker failures, and Python `struct.error` escapes for short
fixed-width reads and out-of-range packs.  One error type with a
constructor per failure mode keeps them distinguishable. -/

inductive PErr where
  | truncated
  | tagMismatch
  | unsupportedVersion
  | checksumMismatch
  | badRecordType
  | packError
  deriving DecidableEq

/-- Read exactly `n` bytes or fail: the contract of the `bolt` unpack
helpers (spec section 4.1; `bolt` is not among the analysed sources).
Returns the bytes read and the remaining stream. -/
def takeE (n : Nat) (bs : List Nat) : Except PErr (List Nat × List Nat) :=
  if n ≤ bs.length then .ok (bs.take n, bs.drop n) else .error .truncated

/-- `unpack_int`: 4-byte little-endian unsigned integer. -/
def readU32 (bs : List Nat) : Except PErr (Nat × List Nat) := do
  let (f, r) ← takeE 4 bs
  .ok (leVal f, r)

/-- `unpack_short`: 2-byte little-endian unsigned integer. -/
def readU16 (bs : List Nat) : Except PErr (Nat × List Nat) := do
  let (f, r) ← takeE 2 bs
  .ok (leVal f, r)

/-- `unpack_byte`: one byte. -/
def readU8 (bs : List Nat) : Except PErr (Nat × List Nat) := do
  let (f, r) ← takeE 1 bs
  .ok (leVal f, r)

/-- struct `=I` pack: fails (`struct.error`) outside the u32 range. -/
def packU32 (n : Nat) : Except PErr (List Nat) :=
  if n < 2 ^ 32 then .ok (u32le n) else .error .packError

/-- struct `=I` pack of a Python int that may have become negative. -/
def packU32i (n : Int) : Except PErr (List Nat) :=
  if 0 ≤ n ∧ n < 2 ^ 32 then .ok (u32le n.toNat) else .error .packError

/-- struct `=H` pack. -/
def packU16 (n : Nat) : Except PErr (List Nat) :=
  if n < 2 ^ 16 then .ok (u16le n) else .error .packError

/-! ### Chunks and plugin chunk groups -/

/-- `_AChunk`: 4-byte type tag, version, declared length, payload. -/
structure Chunk where
  chunkType : List Nat
  chunkVersion : Nat
  chunkLength : Nat
  chunkData : List Nat
  deriving DecidableEq

/-- `_AChunk.__init__` (cosaves.py lines 111-115).  The three header fields
use bolt unpack helpers (fail on truncation); the payload uses a plain
stream read, which silently returns fewer than `chunkLength` bytes at end
of stream. -/
def readChunk (bs : List Nat) : Except PErr (Chunk × List Nat) := do
  let (t, r0) ← takeE 4 bs
  let (v, r1) ← readU32 r0
  let (l, r2) ← readU32 r1
  .ok ({ chunkType := t, chunkVersion := v, chunkLength := l,
         chunkData := r2.take l }, r2.drop l)

/-- `_PluginChunk`: signature, declared chunk count, declared data size,
chunks.  `plugin_data_size` is read as a u32 but is a Python int that the
rename operation updates with signed deltas, hence `Int`. -/
structure PluginChunk where
  plugin_signature : Nat
  num_plugin_chunks : Nat
  plugin_data_size : Int
  plugin_chunks : List Chunk
  deriving DecidableEq

/-- The chunk-reading loop of `_PluginChunk.__init__` (line 385-386). -/
def readChunks : Nat → List Nat → Except PErr (List Chunk × List Nat)
  | 0, bs => .ok ([], bs)
  | n + 1, bs => do
    let (c, r) ← readChunk bs
    let (cs, r2) ← readChunks n r
    .ok (c :: cs, r2)

/-- `_PluginChunk.__init__` (lines 378-386). -/
def readPluginChunk (bs : List Nat) : Except PErr (PluginChunk × List Nat) := do
  let (sig, r0) ← readU32 bs
  let (cnt, r1) ← readU32 r0
  let (sz, r2) ← readU32 r1
  let (cs, r3) ← readChunks cnt r2
  .ok ({ plugin_signature := sig, num_plugin_chunks := cnt,
         plugin_data_size := (sz : Int), plugin_chunks := cs }, r3)

/-! ### xSE header and cosave container -/

structure XSEHeader where
  formatVersion : Nat
  obseVersion : Nat
  obseMinorVersion : Nat
  oblivionVersion : Nat
  numPlugins : Nat
  deriving DecidableEq

/-- `_xSEHeader.__init__` (lines 75-81) after the `_AHeader` tag check
(lines 54-58).  `tag` is the current `savefile_tag` class attribute. -/
def readXSEHeader (tag : List Nat) (bs : List Nat) :
    Except PErr (XSEHeader × List Nat) := do
  let (actual, r0) ← takeE tag.length bs
  if actual ≠ tag then .error .tagMismatch
  else do
    let (fv, r1) ← readU32 r0
    let (ov, r2) ← readU16 r1
    let (omv, r3) ← readU16 r2
    let (gv, r4) ← readU32 r3
    let (np, r5) ← readU32 r4
    .ok ({ formatVersion := fv, obseVersion := ov, obseMinorVersion := omv,
           oblivionVersion := gv, numPlugins := np }, r5)

/-- `_xSEHeader.write_header` (lines 83-88): the tag, then the four fields.
`numPlugins` is not written by the header. -/
def writeXSEHeader (tag : List Nat) (h : XSEHeader) : Except PErr (List Nat) := do
  let fv ← packU32 h.formatVersion
  let ov ← packU16 h.obseVersion
  let omv ← packU16 h.obseMinorVersion
  let gv ← packU32 h.oblivionVersion
  .ok (tag ++ fv ++ ov ++ omv ++ gv)

structure XSECoSave where
  cosave_header : XSEHeader
  plugin_chunks : List PluginChunk
  deriving DecidableEq

/-- `ACoSaveFile.num_plugins` (lines 406-408): the base-class property
returns 0 and no subclass overrides it. -/
def num_plugins : Nat := 0

/-- The group-reading loop of `ACoSaveFile.__init__` (lines 402-404). -/
def readPluginChunks : Nat → List Nat → Except PErr (List PluginChunk × List Nat)
  | 0, bs => .ok ([], bs)
  | n + 1, bs => do
    let (g, r) ← readPluginChunk bs
    let (gs, r2) ← readPluginChunks n r
    .ok (g :: gs, r2)

/-- `ACoSaveFile.__init__` as inherited by `xSECoSave` (lines 398-404):
read the header, then `self.num_plugins` plugin chunk groups.  Any bytes
after the consumed region are ignored (the file is simply closed). -/
def loadXSE (tag : List Nat) (bs : List Nat) : Except PErr XSECoSave := do
  let (hdr, r0) ← readXSEHeader tag bs
  let (gs, _) ← readPluginChunks num_plugins r0
  .ok { cosave_header := hdr, plugin_chunks := gs }

/-- The chunk serialization inside `xSECoSave.write_cosave` (lines 463-466). -/
def writeChunk (c : Chunk) : Except PErr (List Nat) := do
  let v ← packU32 c.chunkVersion
  let l ← packU32 c.chunkLength
  .ok (c.chunkType ++ v ++ l ++ c.chunkData)

/-- `xSECoSave.write_cosave` (lines 453-469), modulo the path / mtime side
effects: header, plugin-group count computed as `len(self.plugin_chunks)`,
then each group header and its chunks. -/
def write_cosave (tag : List Nat) (c : XSECoSave) : Except PErr (List Nat) := do
  let hdr ← writeXSEHeader tag c.cosave_header
  let cnt ← packU32 c.plugin_chunks.length
  let groups ← c.plugin_chunks.mapM (fun g => do
    let sig ← packU32 g.plugin_signature
    let n ← packU32 g.num_plugin_chunks
    let sz ← packU32i g.plugin_data_size
    let cs ← g.plugin_chunks.mapM writeChunk
    pure (sig ++ n ++ sz ++ cs.flatten))
  .ok (hdr ++ cnt ++ groups.flatten)

/-! ### Pluggy header and legacy companion file -/

/-- The 10-byte tag `PluggySave`. -/
def pluggyTag : List Nat := [80, 108, 117, 103, 103, 121, 83, 97, 118, 101]

/-- `_PluggyHeader.__init__` (lines 95-101): tag check, then a version that
must not exceed 0x0105000.  The version is checked but not stored. -/
def readPluggyHeader (bs : List Nat) : Except PErr (List Nat) := do
  let (actual, r0) ← takeE pluggyTag.length bs
  if actual ≠ pluggyTag then .error .tagMismatch
  else do
    let (v, r1) ← readU32 r0
    if 0x0105000 < v then .error .unsupportedVersion
    else .ok r1

/-- `_PluggyHeader.write_header` (lines 103-105): the tag, then the constant
0x0105000 - not the version that was read. -/
def writePluggyHeader : List Nat := pluggyTag ++ u32le 0x0105000

/-- The state `PluggyFile.load` produces: version, plugin entries
`(espid, index, name)`, and the opaque trailer. -/
structure PluggyData where
  version : Nat
  plugins : List (Nat × Nat × List Nat)
  other : List Nat
  deriving DecidableEq

/-- The plugin-entry loop of `PluggyFile.load` (lines 558-561).  The
six fixed bytes come from `_unpack` (fails on truncation); the name uses a
plain `ins.read(modLen)`, which is silently short at end of stream. -/
def readPluggyPlugins :
    Nat → List Nat → Except PErr (List (Nat × Nat × List Nat) × List Nat)
  | 0, bs => .ok ([], bs)
  | n + 1, bs => do
    let (f, r0) ← takeE 6 bs
    let espid := f.getD 0 0
    let index := f.getD 1 0
    let modLen := leVal (f.drop 2)
    let modName := r0.take modLen
    let r1 := r0.drop modLen
    let (ps, r2) ← readPluggyPlugins n r1
    .ok ((espid, index, modName) :: ps, r2)

/-- `PluggyFile.load` (lines 530-566).  The CRC-32 of all bytes but the
last four is compared against those last four bytes before any structural
parsing.  A file shorter than 4 bytes dies inside the struct unpack of the
stored checksum (modelled as a truncation error; unreachable below).  The
final `deprint` line unpacks `self.other[-4:]` and therefore raises a
struct error when the trailer is shorter than 4 bytes. -/
def pluggyLoad (bs : List Nat) : Except PErr PluggyData :=
  if bs.length < 4 then .error .truncated
  else
    let buff := bs.take (bs.length - 4)
    let stored := leVal (bs.drop (bs.length - 4))
    if crc32 buff ≠ stored then .error .checksumMismatch
    else if buff.take 10 ≠ pluggyTag then .error .tagMismatch
    else
      (do
        let (v, r1) ← readU32 (buff.drop 10)
        if v < 0x01020000 then .error .unsupportedVersion
        else do
          let (ty, r2) ← readU8 r1
          if ty ≠ 0 then .error .badRecordType
          else do
            let (count, r3) ← readU32 r2
            let (ps, r4) ← readPluggyPlugins count r3
            if r4.length < 4 then .error .truncated
            else .ok { version := v, plugins := ps, other := r4 })

/-- Case-insensitive `dict.get` on `GPath` keys: `GPath` values compare
equal after case folding, modelled by the abstract `fold`. -/
def lookupMaster (fold : List Nat → List Nat) (m : List (List Nat × List Nat))
    (name : List Nat) : Option (List Nat) :=
  (m.find? (fun kv => fold kv.1 == fold name)).map Prod.snd

/-- `master_renames_dict.get(modName, modName)` / `masterMap.get(z, z)`. -/
def applyRename (fold : List Nat → List Nat) (m : List (List Nat × List Nat))
    (name : List Nat) : List Nat :=
  (lookupMaster fold m name).getD name

/-- `PluggyFile.mapMasters` (lines 524-528) on loaded data: renames inside
the plugin-entry list only.  (The `valid`-flag guard cannot fire here: a
`PluggyData` value only arises from a successful load.) -/
def pluggyMapMasters (fold : List Nat → List Nat)
    (m : List (List Nat × List Nat)) (d : PluggyData) : PluggyData :=
  { d with plugins := d.plugins.map (fun e => (e.1, e.2.1, applyRename fold m e.2.2)) }

/-- The entry serialization of `PluggyFile.save` (lines 581-584).  The name
is encoded first (`modName = encode(modName.cs)`), then the length of the
encoded bytes is packed.  `encCS` is the black-box `encode(·.cs)`
composite. -/
def pluggySaveEntries (encCS : List Nat → List Nat) :
    List (Nat × Nat × List Nat) → Except PErr (List Nat)
  | [] => .ok []
  | (espid, index, name) :: ps =>
    if espid < 256 ∧ index < 256 then do
      let e := encCS name
      let l ← packU32 e.length
      let rest ← pluggySaveEntries encCS ps
      .ok ([espid, index] ++ l ++ e ++ rest)
    else .error .packError

/-- `PluggyFile.save` (lines 568-597), modulo path / mtime side effects:
write magic, version, marker byte 0, count, entries, the stored trailer;
then seek 4 bytes back from the end and overwrite them with the current
offset (`_pack(buff, '=I', buff.tell())` after `buff.seek(-4, 1)`); finally
append a CRC-32 over everything written so far. -/
def pluggySave (encCS : List Nat → List Nat) (d : PluggyData) :
    Except PErr (List Nat) := do
  let v ← packU32 d.version
  let cnt ← packU32 d.plugins.length
  let entries ← pluggySaveEntries encCS d.plugins
  let text0 := pluggyTag ++ v ++ [0] ++ cnt ++ entries ++ d.other
  let pos := text0.length - 4
  let posB ← packU32 pos
  let text := text0.take pos ++ posB
  .ok (text ++ u32le (crc32 text))

/-! ### Master-reference rewrite (`chunk_map_master`) -/

/-- The `while ins.tell() < len(self.chunkData)` loop of
`_xSEChunk.chunk_map_master` (lines 210-216): repeatedly read a
length-prefixed name (`unpack_str16`), rename it, and re-emit it with a
fresh `=H` length.  The rename is `master_renames_dict.get(modName, modName)`
followed by re-encoding, with the text codec collapsed to identity. -/
def xseRewriteLoop (fold : List Nat → List Nat) (m : List (List Nat × List Nat)) :
    List Nat → Except PErr (List Nat)
  | [] => .ok []
  | [_] => .error .truncated
  | b0 :: b1 :: rest =>
    let n := leVal [b0, b1]
    if h : n ≤ rest.length then
      let newName := applyRename fold m (rest.take n)
      if newName.length < 2 ^ 16 then
        (xseRewriteLoop fold m (rest.drop n)).map
          (fun tail => u16le newName.length ++ newName ++ tail)
      else .error .packError
    else .error .truncated
  termination_by bs => bs.length
  decreasing_by simp [List.length_drop]; omega

/-- `_xSEChunk.chunk_map_master` (lines 203-220) on one chunk, with the
owning group's size update reported as a signed delta.  Chunks whose type
tag is not in `_espm_chunk_type` are returned untouched with delta 0. -/
def xseChunkMapMaster (espmSet : List (List Nat)) (fold : List Nat → List Nat)
    (m : List (List Nat × List Nat)) (c : Chunk) : Except PErr (Chunk × Int) :=
  if c.chunkType ∈ espmSet then
    match c.chunkData with
    | [] => .error .truncated
    | numMasters :: rest =>
      (xseRewriteLoop fold m rest).map (fun body =>
        let newData := numMasters :: body
        ({ c with chunkData := newData, chunkLength := newData.length },
         (newData.length : Int) - (c.chunkLength : Int)))
  else .ok (c, 0)

/-- The rewrite loop of `_PluggyChunk.chunk_map_master` (lines 361-367):
read `espId, modId, modNameLen` (fails on truncation), read the name with a
plain (silently short) stream read, rename, write back `espId, modId`, the
length of the renamed name's `.s` form, and the `.cs` (case-folded) bytes. -/
def pluggyRewriteLoop (fold : List Nat → List Nat) (m : List (List Nat × List Nat)) :
    List Nat → Except PErr (List Nat)
  | [] => .ok []
  | bs =>
    if h6 : 6 ≤ bs.length then
      let espId := bs.getD 0 0
      let modId := bs.getD 1 0
      let nlen := leVal ((bs.drop 2).take 4)
      let rest := bs.drop 6
      let newName := applyRename fold m (rest.take nlen)
      if newName.length < 2 ^ 32 then
        (pluggyRewriteLoop fold m (rest.drop nlen)).map
          (fun tail => [espId, modId] ++ u32le newName.length ++ fold newName ++ tail)
      else .error .packError
    else .error .truncated
  termination_by bs => bs.length
  decreasing_by simp [List.length_drop]; omega

/-- `_PluggyChunk.chunk_map_master` (lines 353-371): only chunks whose
4-byte tag decodes (`struct_unpack('=I', ...)`) to 1 are rewritten. -/
def pluggyChunkMapMaster (fold : List Nat → List Nat)
    (m : List (List Nat × List Nat)) (c : Chunk) : Except PErr (Chunk × Int) :=
  if leVal c.chunkType = 1 then
    (pluggyRewriteLoop fold m c.chunkData).map (fun body =>
      ({ c with chunkData := body, chunkLength := body.length },
       (body.length : Int) - (c.chunkLength : Int)))
  else .ok (c, 0)

/-- The three chunk behaviours selected by `_PluginChunk._get_plugin_chunk_type`
(lines 388-391). -/
inductive ChunkKind where
  | xse
  | pluggy
  | base
  deriving DecidableEq

/-- `_PluginChunk._get_plugin_chunk_type` (lines 388-391).  The pluggy
signature is `None` for plain `xSECoSave` and `SkseCosave`. -/
def getPluginChunkType (xseSig : Nat) (pluggySig : Option Nat) (sig : Nat) :
    ChunkKind :=
  if sig = xseSig then .xse
  else if some sig = pluggySig then .pluggy
  else .base

/-- `chunk_map_master` dispatched on the chunk's class.  The `_AChunk` base
implementation (lines 124-129) is a no-op. -/
def chunkMapMaster (kind : ChunkKind) (espmSet : List (List Nat))
    (fold : List Nat → List Nat) (m : List (List Nat × List Nat)) (c : Chunk) :
    Except PErr (Chunk × Int) :=
  match kind with
  | .xse => xseChunkMapMaster espmSet fold m c
  | .pluggy => pluggyChunkMapMaster fold m c
  | .base => .ok (c, 0)

/-- Whether `chunk_map_master` rewrites this chunk at all. -/
def chunkEdited (kind : ChunkKind) (espmSet : List (List Nat)) (c : Chunk) : Prop :=
  match kind with
  | .xse => c.chunkType ∈ espmSet
  | .pluggy => leVal c.chunkType = 1
  | .base => False

/-- The inner loop of `xSECoSave.map_masters` (lines 418-421) over one
group: each chunk is rewritten in place and `plugin_data_size` accumulates
the signed deltas (line 220 / 371). -/
def groupMapMaster (xseSig : Nat) (pluggySig : Option Nat)
    (espmSet : List (List Nat)) (fold : List Nat → List Nat)
    (m : List (List Nat × List Nat)) (g : PluginChunk) :
    Except PErr PluginChunk := do
  let kind := getPluginChunkType xseSig pluggySig g.plugin_signature
  let (cs, total) ← g.plugin_chunks.foldlM
    (fun (acc : List Chunk × Int) c => do
      let (c2, d) ← chunkMapMaster kind espmSet fold m c
      pure (acc.1 ++ [c2], acc.2 + d))
    ([], 0)
  .ok { g with plugin_chunks := cs, plugin_data_size := g.plugin_data_size + total }

/-- `xSECoSave.map_masters` (lines 418-421). -/
def map_masters (xseSig : Nat) (pluggySig : Option Nat)
    (espmSet : List (List Nat)) (fold : List Nat → List Nat)
    (m : List (List Nat × List Nat)) (c : XSECoSave) : Except PErr XSECoSave := do
  let gs ← c.plugin_chunks.mapM (groupMapMaster xseSig pluggySig espmSet fold m)
  .ok { c with plugin_chunks := gs }

/-! ### Game-dialect selection (`get_cosave_type`, lines 487-509)

The factory mutates shared class attributes: `_xSEHeader.savefile_tag`
(initially `'OVERRIDE'` from `_AHeader`) and `_xSEChunk._espm_chunk_type`
(initially `{'SDOM'}`, line 132).  We model that shared class state
explicitly and thread it through calls. -/

structure XSEClassState where
  savefile_tag : String
  espm_chunk_type : List String
  deriving DecidableEq

/-- The class attributes before any `get_cosave_type` call. -/
def initialClassState : XSEClassState :=
  { savefile_tag := "OVERRIDE", espm_chunk_type := ["SDOM"] }

/-- The classes the factory can return. -/
inductive CosaveClass where
  | obseCosave
  | skseCosave
  | xseCosave
  deriving DecidableEq

/-- `get_cosave_type` (lines 487-509): returns the class for the game and
updates the shared class attributes as a side effect. -/
def get_cosave_type (game_fsName : String) (s : XSEClassState) :
    Option CosaveClass × XSEClassState :=
  if game_fsName = "Oblivion" then
    (some .obseCosave, { s with savefile_tag := "OBSE" })
  else if game_fsName = "Skyrim" then
    (some .skseCosave, { s with savefile_tag := "SKSE" })
  else if game_fsName = "Skyrim Special Edition" then
    (some .skseCosave, { savefile_tag := "SKSE", espm_chunk_type := ["SDOM", "DOML"] })
  else if game_fsName = "Fallout4" then
    (some .skseCosave, { savefile_tag := "F4SE", espm_chunk_type := ["SDOM", "DOML"] })
  else if game_fsName = "Fallout3" then
    (some .xseCosave, { s with savefile_tag := "FOSE" })
  else if game_fsName = "FalloutNV" then
    (some .xseCosave, { s with savefile_tag := "NVSE" })
  else (none, s)

/-! ### Inversion helpers -/

theorem except_bind_ok {α β : Type} (x : Except PErr α) (f : α → Except PErr β)
    (b : β) : (x >>= f) = .ok b ↔ ∃ a, x = .ok a ∧ f a = .ok b := by
  cases x <;> simp [Except.bind, Bind.bind]

theorem takeE_ok_iff (n : Nat) (bs : List Nat) (p : List Nat × List Nat) :
    takeE n bs = .ok p ↔ n ≤ bs.length ∧ p = (bs.take n, bs.drop n) := by
  unfold takeE
  split <;> simp_all [eq_comm]

theorem readU32_ok_iff (bs : List Nat) (p : Nat × List Nat) :
    readU32 bs = .ok p ↔ 4 ≤ bs.length ∧ p = (leVal (bs.take 4), bs.drop 4) := by
  unfold readU32
  simp only [except_bind_ok, takeE_ok_iff, Prod.exists, Prod.mk.injEq]
  constructor
  · rintro ⟨a, b, ⟨hlen, ha, hb⟩, hp⟩
    subst ha hb
    injection hp with hp2
    exact ⟨hlen, hp2.symm⟩
  · rintro ⟨hlen, rfl⟩
    exact ⟨_, _, ⟨hlen, rfl, rfl⟩, rfl⟩

theorem readU16_ok_iff (bs : List Nat) (p : Nat × List Nat) :
    readU16 bs = .ok p ↔ 2 ≤ bs.length ∧ p = (leVal (bs.take 2), bs.drop 2) := by
  unfold readU16
  simp only [except_bind_ok, takeE_ok_iff, Prod.exists, Prod.mk.injEq]
  constructor
  · rintro ⟨a, b, ⟨hlen, ha, hb⟩, hp⟩
    subst ha hb
    injection hp with hp2
    exact ⟨hlen, hp2.symm⟩
  · rintro ⟨hlen, rfl⟩
    exact ⟨_, _, ⟨hlen, rfl, rfl⟩, rfl⟩

theorem readU8_ok_iff (bs : List Nat) (p : Nat × List Nat) :
    readU8 bs = .ok p ↔ 1 ≤ bs.length ∧ p = (leVal (bs.take 1), bs.drop 1) := by
  unfold readU8
  simp only [except_bind_ok, takeE_ok_iff, Prod.exists, Prod.mk.injEq]
  constructor
  · rintro ⟨a, b, ⟨hlen, ha, hb⟩, hp⟩
    subst ha hb
    injection hp with hp2
    exact ⟨hlen, hp2.symm⟩
  · rintro ⟨hlen, rfl⟩
    exact ⟨_, _, ⟨hlen, rfl, rfl⟩, rfl⟩

/-! ### Concrete inputs used by the claim theorems -/

instance exceptDecEq {e a : Type} [DecidableEq e] [DecidableEq a] :
    DecidableEq (Except e a)
  | .error x, .error y =>
    if h : x = y then isTrue (by rw [h]) else isFalse (by simp [h])
  | .error _, .ok _ => isFalse (by simp)
  | .ok _, .error _ => isFalse (by simp)
  | .ok x, .ok y =>
    if h : x = y then isTrue (by rw [h]) else isFalse (by simp [h])

/-- A minimal OBSE cosave: header declaring one plugin, followed by one
empty plugin chunk group with an unknown signature 0x9999. -/
def obseOnePluginFile : List Nat :=
  [79, 66, 83, 69] ++ u32le 1 ++ u16le 2 ++ u16le 3 ++ u32le 4 ++ u32le 1 ++
    (u32le 0x9999 ++ u32le 0 ++ u32le 0)

/-- The bytes `write_cosave` produces for the loaded form of
`obseOnePluginFile`: the header fields followed by a plugin count of 0. -/
def obseRewrittenBytes : List Nat :=
  [79, 66, 83, 69] ++ u32le 1 ++ u16le 2 ++ u16le 3 ++ u32le 4 ++ u32le 0

/-- C1: the generic cosave loader reads the header (including the declared
plugin count, here 1) but then parses `num_plugins` = 0 plugin chunk
groups: the group present in the stream is never parsed.  This contradicts
both the spec's Load contract and the module's own purpose (`map_masters`,
`logStatObse` and `write_cosave` all iterate `self.plugin_chunks`). -/
theorem loadXSE_ignores_declared_plugin_count :
    loadXSE [79, 66, 83, 69] obseOnePluginFile =
      .ok ⟨⟨1, 2, 3, 4, 1⟩, []⟩ := by decide

/-- C2: writing back the loaded form of a valid cosave that declares one
plugin group produces different bytes - the plugin count is written as
`len(self.plugin_chunks)` = 0 and the group's bytes are dropped. -/
theorem write_after_load_not_roundtrip :
    (loadXSE [79, 66, 83, 69] obseOnePluginFile).bind
        (write_cosave [79, 66, 83, 69]) = .ok obseRewrittenBytes ∧
      obseRewrittenBytes ≠ obseOnePluginFile := by decide

/-- A chunk stream declaring a 4-byte payload but providing only 2 bytes. -/
def truncatedChunkStream : List Nat := [65, 66, 67, 68] ++ u32le 0 ++ u32le 4 ++ [1, 2]

/-- C5: `_AChunk.__init__` reads the payload with a plain `ins.read`, so a
stream holding fewer than `chunkLength` bytes is silently accepted: the
constructor succeeds with a 2-byte `chunkData` under a declared length
of 4, instead of failing with a truncation error. -/
theorem readChunk_accepts_short_payload :
    readChunk truncatedChunkStream =
      .ok (⟨[65, 66, 67, 68], 0, 4, [1, 2]⟩, []) ∧
      ([1, 2] : List Nat).length ≠ 4 := by decide

/-- C8: a full load → rename (with a no-op map entry) → write cycle on a
cosave holding a plugin group whose signature (0x9999) is neither the xSE
signature (0x1400) nor the Pluggy signature (0x2330) is not byte-identical:
the group is dropped entirely, because `load` parsed zero groups. -/
theorem unknown_plugin_group_not_passed_through :
    (do
      let c ← loadXSE [79, 66, 83, 69] obseOnePluginFile
      let c2 ← map_masters 0x1400 (some 0x2330) [[83, 68, 79, 77]]
        (fun b => b) [([88], [88])] c
      write_cosave [79, 66, 83, 69] c2) = .ok obseRewrittenBytes ∧
      obseRewrittenBytes ≠ obseOnePluginFile := by decide

/-- C10: `get_cosave_type` mutates shared class state.  After a call for
Skyrim Special Edition, the shared master-list tag set is
`{'SDOM', 'DOML'}`; a later call for Oblivion resets only the header tag,
so the class returned for Oblivion still treats `'DOML'` as a master-list
tag, and the shared header tag is that of the most recent call.  Calls for
Oblivion / Skyrim / Fallout3 / FalloutNV never reset the tag set either. -/
theorem get_cosave_type_shares_mutable_state (s : XSEClassState) :
    (get_cosave_type "Skyrim Special Edition" s).2.espm_chunk_type
        = ["SDOM", "DOML"] ∧
      get_cosave_type "Oblivion" (get_cosave_type "Skyrim Special Edition" s).2
        = (some .obseCosave,
           { savefile_tag := "OBSE", espm_chunk_type := ["SDOM", "DOML"] }) ∧
      (get_cosave_type "Fallout4" s).2.espm_chunk_type = ["SDOM", "DOML"] ∧
      (get_cosave_type "Oblivion" s).2.espm_chunk_type = s.espm_chunk_type ∧
      (get_cosave_type "Skyrim" s).2.espm_chunk_type = s.espm_chunk_type ∧
      (get_cosave_type "Fallout3" s).2.espm_chunk_type = s.espm_chunk_type ∧
      (get_cosave_type "FalloutNV" s).2.espm_chunk_type = s.espm_chunk_type ∧
      (get_cosave_type "Oblivion" s).2.savefile_tag = "OBSE" ∧
      (get_cosave_type "Skyrim Special Edition" s).2.savefile_tag = "SKSE" := by
  refine ⟨rfl, rfl, rfl, ?_, ?_, ?_, ?_, rfl, rfl⟩ <;> rfl

/-! ### C6: header write vs. the bytes read -/

theorem u32le_leVal_len (f : List Nat) (hlen : f.length = 4)
    (hwf : ∀ x ∈ f, x < 256) : u32le (leVal f) = f := by
  match f with
  | [a, b, c, d] =>
    exact u32le_leVal a b c d (hwf a (by simp)) (hwf b (by simp))
      (hwf c (by simp)) (hwf d (by simp))
  | [] | [_] | [_, _] | [_, _, _] => simp at hlen
  | _ :: _ :: _ :: _ :: _ :: _ => simp at hlen

theorem u16le_leVal_len (f : List Nat) (hlen : f.length = 2)
    (hwf : ∀ x ∈ f, x < 256) : u16le (leVal f) = f := by
  match f with
  | [a, b] => exact u16le_leVal a b (hwf a (by simp)) (hwf b (by simp))
  | [] | [_] => simp at hlen
  | _ :: _ :: _ :: _ => simp at hlen

theorem leVal_lt_u32 (f : List Nat) (hlen : f.length = 4)
    (hwf : ∀ x ∈ f, x < 256) : leVal f < 2 ^ 32 := by
  have := leVal_lt f hwf
  rw [hlen] at this
  norm_num at this
  exact this

theorem leVal_lt_u16 (f : List Nat) (hlen : f.length = 2)
    (hwf : ∀ x ∈ f, x < 256) : leVal f < 2 ^ 16 := by
  have := leVal_lt f hwf
  rw [hlen] at this
  norm_num at this
  exact this

/-- A Pluggy header file whose version field (0x0104000) is below the
supported ceiling but different from it. -/
def pluggyHeaderFile : List Nat := pluggyTag ++ u32le 0x0104000

/-- C6 counterexample: the Pluggy header parses this file (reading version
0x0104000), but `write_header` emits the constant 0x0105000, so the written
header region differs from the bytes that were parsed. -/
theorem pluggy_header_write_changes_version :
    readPluggyHeader pluggyHeaderFile = .ok [] ∧
      writePluggyHeader ≠ pluggyHeaderFile := by decide

/-- C6 amended: the generic header's write emits the tag and the four read
fields byte-identically (the trailing plugin count is consumed by the
header read but written by the container); the legacy header's write emits
the tag plus the constant 0x0105000, which matches the parsed bytes exactly
when the version read was 0x0105000. -/
theorem header_write_emits_read_fields (tag bs : List Nat) (h : XSEHeader)
    (rest : List Nat) (hwf : ∀ x ∈ bs, x < 256)
    (hread : readXSEHeader tag bs = .ok (h, rest)) :
    writeXSEHeader tag h = .ok (bs.take (tag.length + 12)) ∧
      (∀ bs2 r2, readPluggyHeader bs2 = .ok r2 →
        (writePluggyHeader = bs2.take 14 ↔
          (bs2.drop 10).take 4 = u32le 0x0105000)) := by
  constructor
  · unfold readXSEHeader at hread
    rcases (except_bind_ok _ _ _).mp hread with ⟨⟨actual, r0⟩, hta, hrest⟩
    rcases (takeE_ok_iff _ _ _).mp hta with ⟨hlen, hpair⟩
    rw [Prod.mk.injEq] at hpair
    obtain ⟨ha, hr0⟩ := hpair
    subst ha
    subst hr0
    dsimp only at hrest
    by_cases hc : List.take tag.length bs = tag
    case neg =>
      rw [if_pos hc] at hrest
      simp at hrest
    rw [if_neg (fun hne => hne hc)] at hrest
    rcases (except_bind_ok _ _ _).mp hrest with ⟨⟨fv, r1⟩, h1, hb1⟩
    rcases (readU32_ok_iff _ _).mp h1 with ⟨hl1, hp1⟩
    rw [Prod.mk.injEq] at hp1
    obtain ⟨hfv, hr1⟩ := hp1
    subst hfv
    subst hr1
    dsimp only at hb1
    rcases (except_bind_ok _ _ _).mp hb1 with ⟨⟨ov, r2⟩, h2, hb2⟩
    rcases (readU16_ok_iff _ _).mp h2 with ⟨hl2, hp2⟩
    rw [Prod.mk.injEq] at hp2
    obtain ⟨hov, hr2⟩ := hp2
    subst hov
    subst hr2
    dsimp only at hb2
    rcases (except_bind_ok _ _ _).mp hb2 with ⟨⟨omv, r3⟩, h3, hb3⟩
    rcases (readU16_ok_iff _ _).mp h3 with ⟨hl3, hp3⟩
    rw [Prod.mk.injEq] at hp3
    obtain ⟨homv, hr3⟩ := hp3
    subst homv
    subst hr3
    dsimp only at hb3
    rcases (except_bind_ok _ _ _).mp hb3 with ⟨⟨gv, r4⟩, h4, hb4⟩
    rcases (readU32_ok_iff _ _).mp h4 with ⟨hl4, hp4⟩
    rw [Prod.mk.injEq] at hp4
    obtain ⟨hgv, hr4⟩ := hp4
    subst hgv
    subst hr4
    dsimp only at hb4
    rcases (except_bind_ok _ _ _).mp hb4 with ⟨⟨np, r5⟩, h5, hb5⟩
    rcases (readU32_ok_iff _ _).mp h5 with ⟨hl5, hp5⟩
    rw [Prod.mk.injEq] at hp5
    obtain ⟨hnp, hr5⟩ := hp5
    subst hnp
    subst hr5
    dsimp only at hb5
    injection hb5 with hb6
    rw [Prod.mk.injEq] at hb6
    obtain ⟨hh, hr⟩ := hb6
    subst hh
    have wfA : ∀ x ∈ (List.drop tag.length bs).take 4, x < 256 := fun x hx =>
      hwf x (List.mem_of_mem_drop (List.mem_of_mem_take hx))
    have wfB : ∀ x ∈ ((List.drop tag.length bs).drop 4).take 2, x < 256 := fun x hx =>
      hwf x (List.mem_of_mem_drop (List.mem_of_mem_drop (List.mem_of_mem_take hx)))
    have wfC : ∀ x ∈ (((List.drop tag.length bs).drop 4).drop 2).take 2, x < 256 :=
      fun x hx => hwf x (List.mem_of_mem_drop (List.mem_of_mem_drop
        (List.mem_of_mem_drop (List.mem_of_mem_take hx))))
    have wfD : ∀ x ∈ ((((List.drop tag.length bs).drop 4).drop 2).drop 2).take 4,
        x < 256 := fun x hx => hwf x (List.mem_of_mem_drop (List.mem_of_mem_drop
        (List.mem_of_mem_drop (List.mem_of_mem_drop (List.mem_of_mem_take hx)))))
    simp only [List.length_drop] at hl1 hl2 hl3 hl4 hl5
    have lA : ((List.drop tag.length bs).take 4).length = 4 := by
      simp [List.length_take, List.length_drop]
      omega
    have lB : (((List.drop tag.length bs).drop 4).take 2).length = 2 := by
      simp [List.length_take, List.length_drop]
      omega
    have lC : ((((List.drop tag.length bs).drop 4).drop 2).take 2).length = 2 := by
      simp [List.length_take, List.length_drop]
      omega
    have lD : (((((List.drop tag.length bs).drop 4).drop 2).drop 2).take 4).length
        = 4 := by
      simp [List.length_take, List.length_drop]
      omega
    unfold writeXSEHeader packU32 packU16
    rw [if_pos (leVal_lt_u32 _ lA wfA), if_pos (leVal_lt_u16 _ lB wfB)]
    dsimp only
    rw [if_pos (leVal_lt_u16 _ lC wfC), if_pos (leVal_lt_u32 _ lD wfD)]
    rw [u32le_leVal_len _ lA wfA, u16le_leVal_len _ lB wfB,
      u16le_leVal_len _ lC wfC, u32le_leVal_len _ lD wfD]
    rw [show tag.length + 12 = tag.length + (4 + (2 + (2 + 4))) from rfl,
      List.take_add, List.take_add, List.take_add, List.take_add, hc]
    simp [List.append_assoc, Bind.bind, Except.bind, List.drop_drop]
  · intro bs2 r2 hread2
    unfold readPluggyHeader at hread2
    rcases (except_bind_ok _ _ _).mp hread2 with ⟨⟨actual, r0⟩, hta, hrest⟩
    rcases (takeE_ok_iff _ _ _).mp hta with ⟨hlen, hpair⟩
    rw [Prod.mk.injEq] at hpair
    obtain ⟨ha, hr0⟩ := hpair
    subst ha
    subst hr0
    dsimp only at hrest
    by_cases hc : List.take pluggyTag.length bs2 = pluggyTag
    case neg =>
      rw [if_pos hc] at hrest
      simp at hrest
    have h14 : bs2.take 14 = pluggyTag ++ (bs2.drop 10).take 4 := by
      rw [show (14 : Nat) = pluggyTag.length + 4 from rfl, List.take_add, hc,
        show pluggyTag.length = 10 from rfl]
    rw [h14]
    unfold writePluggyHeader
    simp [eq_comm]

/-- Witness: the C6 theorem applied to a concrete OBSE header and the
concrete Pluggy header file. -/
theorem header_write_emits_read_fields_witness :
    writeXSEHeader [79, 66, 83, 69] ⟨1, 2, 3, 4, 1⟩ =
      .ok (obseOnePluginFile.take 16) ∧
      (writePluggyHeader = pluggyHeaderFile.take 14 ↔
        (pluggyHeaderFile.drop 10).take 4 = u32le 0x0105000) := by
  have h := header_write_emits_read_fields [79, 66, 83, 69] obseOnePluginFile
    ⟨1, 2, 3, 4, 1⟩ (u32le 0x9999 ++ u32le 0 ++ u32le 0) (by decide) (by decide)
  exact ⟨h.1, h.2 pluggyHeaderFile [] (by decide)⟩

/-! ### C4: size-delta propagation -/

theorem except_map_ok {a b : Type} (x : Except PErr a) (f : a → b) (y : b) :
    x.map f = .ok y ↔ ∃ v, x = .ok v ∧ f v = y := by
  cases x <;> simp [Except.map]

theorem except_pure_ok {a : Type} (x y : a) :
    (pure x : Except PErr a) = .ok y ↔ x = y := by
  simp [pure, Except.pure]

theorem mapM_ok_zip {a b : Type} (f : a → Except PErr b) :
    ∀ (l : List a) (rs : List b), l.mapM f = .ok rs →
      ∀ p ∈ l.zip rs, f p.1 = .ok p.2 := by
  intro l
  induction l with
  | nil =>
    intro rs h p hp
    simp at hp
  | cons x l ih =>
    intro rs h p hp
    rw [List.mapM_cons] at h
    rcases (except_bind_ok _ _ _).mp h with ⟨y, hfx, h2⟩
    rcases (except_bind_ok _ _ _).mp h2 with ⟨ys, hmm, h3⟩
    rw [except_pure_ok] at h3
    subst h3
    rcases List.mem_cons.mp (by simpa using hp) with hph | hph
    · rw [hph]
      exact hfx
    · exact ih ys hmm p hph

theorem foldlM_rename_spec (f : Chunk → Except PErr (Chunk × Int)) :
    ∀ (cs : List Chunk) (acc res : List Chunk × Int),
      cs.foldlM (fun acc c => do
          let (c2, d) ← f c
          pure (acc.1 ++ [c2], acc.2 + d)) acc = .ok res →
      ∃ rs, cs.mapM f = .ok rs ∧ res.1 = acc.1 ++ rs.map Prod.fst ∧
        res.2 = acc.2 + (rs.map Prod.snd).sum := by
  intro cs
  induction cs with
  | nil =>
    intro acc res h
    rw [List.foldlM_nil, except_pure_ok] at h
    subst h
    exact ⟨[], rfl, by simp, by simp⟩
  | cons c cs ih =>
    intro acc res h
    rw [List.foldlM_cons] at h
    rcases (except_bind_ok _ _ _).mp h with ⟨acc2, hstep, hrest⟩
    rcases (except_bind_ok _ _ _).mp hstep with ⟨⟨c2, d⟩, hfc, hpure⟩
    dsimp only at hpure
    rw [except_pure_ok] at hpure
    subst hpure
    rcases ih _ _ hrest with ⟨rs, hmap, h1, h2⟩
    refine ⟨(c2, d) :: rs, ?_, ?_, ?_⟩
    · rw [List.mapM_cons, hfc, hmap]
      simp [Bind.bind, Except.bind, pure, Except.pure]
    · simp [h1, List.append_assoc]
    · simp [h2]
      omega

/-- Per-chunk contract of `chunk_map_master`: the reported delta is the
change of the `chunkLength` field; an edited chunk's length field equals its
new payload length (updated in the same operation); an unedited chunk is
returned untouched with delta 0. -/
theorem chunkMapMaster_spec (kind : ChunkKind) (espmSet : List (List Nat))
    (fold : List Nat → List Nat) (m : List (List Nat × List Nat))
    (c c2 : Chunk) (d : Int)
    (h : chunkMapMaster kind espmSet fold m c = .ok (c2, d)) :
    d = (c2.chunkLength : Int) - (c.chunkLength : Int) ∧
      (chunkEdited kind espmSet c → c2.chunkLength = c2.chunkData.length) ∧
      (¬ chunkEdited kind espmSet c → c2 = c ∧ d = 0) := by
  cases kind with
  | base =>
    unfold chunkMapMaster at h
    injection h with h2
    rw [Prod.mk.injEq] at h2
    obtain ⟨hc, hd⟩ := h2
    subst hc
    subst hd
    exact ⟨by omega, fun he => he.elim, fun _ => ⟨rfl, rfl⟩⟩
  | xse =>
    unfold chunkMapMaster xseChunkMapMaster at h
    by_cases hmem : c.chunkType ∈ espmSet
    · rw [if_pos hmem] at h
      rcases hcd : c.chunkData with _ | ⟨b0, rest⟩
      · rw [hcd] at h
        simp at h
      · rw [hcd] at h
        rw [except_map_ok] at h
        rcases h with ⟨body, hloop, hpair⟩
        rw [Prod.mk.injEq] at hpair
        obtain ⟨hc2, hd⟩ := hpair
        subst hc2
        subst hd
        refine ⟨rfl, fun _ => rfl, fun hne => absurd hmem hne⟩
    · rw [if_neg hmem] at h
      injection h with h2
      rw [Prod.mk.injEq] at h2
      obtain ⟨hc, hd⟩ := h2
      subst hc
      subst hd
      exact ⟨by omega, fun he => absurd he hmem, fun _ => ⟨rfl, rfl⟩⟩
  | pluggy =>
    unfold chunkMapMaster pluggyChunkMapMaster at h
    by_cases hone : leVal c.chunkType = 1
    · rw [if_pos hone] at h
      rw [except_map_ok] at h
      rcases h with ⟨body, hloop, hpair⟩
      rw [Prod.mk.injEq] at hpair
      obtain ⟨hc2, hd⟩ := hpair
      subst hc2
      subst hd
      refine ⟨rfl, fun _ => rfl, fun hne => absurd hone hne⟩
    · rw [if_neg hone] at h
      injection h with h2
      rw [Prod.mk.injEq] at h2
      obtain ⟨hc, hd⟩ := h2
      subst hc
      subst hd
      exact ⟨by omega, fun he => absurd he hone, fun _ => ⟨rfl, rfl⟩⟩

/-- C4: after a full rename pass over a group, the group's declared data
size equals its previous value plus the sum of the signed per-chunk deltas
`new_chunk_length - old_chunk_length`; each edited chunk's length field is
updated to its new payload size in the same operation, and unedited chunks
contribute delta 0 unchanged. -/
theorem group_declared_size_tracks_chunk_deltas
    (xseSig : Nat) (pluggySig : Option Nat) (espmSet : List (List Nat))
    (fold : List Nat → List Nat) (m : List (List Nat × List Nat))
    (g g2 : PluginChunk) (rs : List (Chunk × Int))
    (hmap : g.plugin_chunks.mapM
      (chunkMapMaster (getPluginChunkType xseSig pluggySig g.plugin_signature)
        espmSet fold m) = .ok rs)
    (hgrp : groupMapMaster xseSig pluggySig espmSet fold m g = .ok g2) :
    g2.plugin_data_size = g.plugin_data_size + (rs.map Prod.snd).sum ∧
      g2.plugin_chunks = rs.map Prod.fst ∧
      ∀ p ∈ g.plugin_chunks.zip rs,
        p.2.2 = (p.2.1.chunkLength : Int) - (p.1.chunkLength : Int) ∧
          (chunkEdited (getPluginChunkType xseSig pluggySig g.plugin_signature)
              espmSet p.1 → p.2.1.chunkLength = p.2.1.chunkData.length) ∧
          (¬ chunkEdited (getPluginChunkType xseSig pluggySig g.plugin_signature)
              espmSet p.1 → p.2.1 = p.1 ∧ p.2.2 = 0) := by
  unfold groupMapMaster at hgrp
  rcases (except_bind_ok _ _ _).mp hgrp with ⟨⟨cs, total⟩, hfold, hok⟩
  dsimp only at hok
  rcases foldlM_rename_spec _ g.plugin_chunks ([], 0) (cs, total) hfold
    with ⟨rs2, hmap2, h1, h2⟩
  rw [hmap] at hmap2
  injection hmap2 with hrs
  subst hrs
  injection hok with hok2
  subst hok2
  refine ⟨by simpa using h2, by simpa using h1, ?_⟩
  intro p hp
  have hf := mapM_ok_zip _ _ _ hmap p hp
  rcases p with ⟨c, c2, d⟩
  exact chunkMapMaster_spec _ _ _ _ _ _ _ hf

/-- A concrete xSE plugin group: one master-list chunk (tag `SDOM`) holding
one name `[65]`, with declared size 100. -/
def sampleGroup : PluginChunk :=
  ⟨0x1400, 1, 100, [⟨[83, 68, 79, 77], 5, 4, [1, 1, 0, 65]⟩]⟩

/-- `sampleGroup` after renaming `[65]` to the longer `[66, 67]`. -/
def sampleGroupRenamed : PluginChunk :=
  ⟨0x1400, 1, 101, [⟨[83, 68, 79, 77], 5, 5, [1, 2, 0, 66, 67]⟩]⟩

theorem sample_rewrite_loop :
    xseRewriteLoop (fun b => b) [([65], [66, 67])] [1, 0, 65] =
      .ok [2, 0, 66, 67] := by
  rw [xseRewriteLoop]
  simp [applyRename, lookupMaster, leVal, u16le]
  rw [xseRewriteLoop]
  rfl

/-- The rename results for `sampleGroup`'s single chunk. -/
def sampleRS : List (Chunk × Int) :=
  [(⟨[83, 68, 79, 77], 5, 5, [1, 2, 0, 66, 67]⟩, 1)]

/-- Witness: the C4 theorem applied to `sampleGroup` with the rename map
`{[65] ↦ [66, 67]}` (delta +1 on the edited chunk). -/
theorem group_declared_size_witness :
    sampleGroupRenamed.plugin_data_size =
        sampleGroup.plugin_data_size + ((sampleRS.map Prod.snd).sum) ∧
      sampleGroupRenamed.plugin_chunks = sampleRS.map Prod.fst := by
  have hmap : sampleGroup.plugin_chunks.mapM
      (chunkMapMaster (getPluginChunkType 0x1400 none sampleGroup.plugin_signature)
        [[83, 68, 79, 77]] (fun b => b) [([65], [66, 67])]) = .ok sampleRS := by
    simp [sampleGroup, sampleRS, List.mapM, List.mapM.loop, chunkMapMaster,
      getPluginChunkType, xseChunkMapMaster, sample_rewrite_loop, Except.map]
  have hgrp : groupMapMaster 0x1400 none [[83, 68, 79, 77]] (fun b => b)
      [([65], [66, 67])] sampleGroup = .ok sampleGroupRenamed := by
    simp [sampleGroup, sampleGroupRenamed, groupMapMaster, List.foldlM,
      chunkMapMaster, getPluginChunkType, xseChunkMapMaster,
      sample_rewrite_loop, Except.map, Bind.bind, Except.bind, pure, Except.pure]
  have h := group_declared_size_tracks_chunk_deltas 0x1400 none
    [[83, 68, 79, 77]] (fun b => b) [([65], [66, 67])] sampleGroup
    sampleGroupRenamed sampleRS hmap hgrp
  exact ⟨h.1, h.2.1⟩

/-! ### C3: checksum before structure; single-byte flips always detected -/

/-- C3: `PluggyFile.load` verifies the trailing CRC-32 before any
structural parse - any mismatch yields the checksum error regardless of the
file's structure - and flipping any single byte of a loadable file at a
position before the trailing 4-byte checksum makes `load` fail with the
checksum-mismatch error, never a structural one. -/
theorem pluggy_load_checksum_guard (bs : List Nat) (d : PluggyData)
    (i b2 : Nat) :
    (∀ bs2 : List Nat, 4 ≤ bs2.length →
        crc32 (bs2.take (bs2.length - 4)) ≠ leVal (bs2.drop (bs2.length - 4)) →
        pluggyLoad bs2 = .error .checksumMismatch) ∧
      ((∀ x ∈ bs, x < 256) → pluggyLoad bs = .ok d → i < bs.length - 4 →
        b2 < 256 → b2 ≠ bs.getD i 0 →
        pluggyLoad (bs.set i b2) = .error .checksumMismatch) := by
  constructor
  · intro bs2 h4 hmis
    unfold pluggyLoad
    rw [if_neg (by omega), if_pos hmis]
  · intro hwf hload hi hb2 hne
    unfold pluggyLoad at hload
    by_cases h4 : bs.length < 4
    · rw [if_pos h4] at hload
      simp at hload
    rw [if_neg h4] at hload
    by_cases hcrc : crc32 (bs.take (bs.length - 4)) ≠ leVal (bs.drop (bs.length - 4))
    · rw [if_pos hcrc] at hload
      simp at hload
    have heq := not_not.mp hcrc
    unfold pluggyLoad
    have hlen : (bs.set i b2).length = bs.length := List.length_set bs i b2
    rw [hlen]
    rw [if_neg h4]
    have hdropEq : (bs.set i b2).drop (bs.length - 4) = bs.drop (bs.length - 4) :=
      List.drop_set_of_lt b2 bs (by omega)
    have htakeEq : (bs.set i b2).take (bs.length - 4) =
        (bs.take (bs.length - 4)).set i b2 := List.set_take
    have hitk : i < (bs.take (bs.length - 4)).length := by
      simp [List.length_take]
      omega
    have hgd : (bs.take (bs.length - 4)).getD i 0 = bs.getD i 0 := by
      rw [List.getD_eq_getElem _ _ hitk, List.getD_eq_getElem _ _ (by omega),
        List.getElem_take]
    have hcrcne : crc32 ((bs.take (bs.length - 4)).set i b2) ≠
        crc32 (bs.take (bs.length - 4)) := by
      apply crc32_set_ne _ _ _ hitk
        (fun y hy => hwf y (List.mem_of_mem_take hy)) hb2
      rw [hgd]
      exact hne
    rw [if_pos]
    rw [htakeEq, hdropEq]
    rw [heq] at hcrcne
    exact hcrcne

/-- A minimal valid Pluggy cosave: version 0x01020000, zero plugin entries,
a 4-byte opaque trailer, and a correct trailing CRC-32. -/
def samplePluggyPrefix : List Nat :=
  pluggyTag ++ u32le 0x01020000 ++ [0] ++ u32le 0 ++ [9, 9, 9, 9]

def samplePluggyFile : List Nat :=
  samplePluggyPrefix ++ u32le (crc32 samplePluggyPrefix)

/-- Witness: the C3 theorem applied to `samplePluggyFile` with its first
byte flipped from 80 to 66. -/
theorem pluggy_load_checksum_guard_witness :
    pluggyLoad (samplePluggyFile.set 0 66) = .error .checksumMismatch := by
  have h := pluggy_load_checksum_guard samplePluggyFile
    ⟨0x01020000, [], [9, 9, 9, 9]⟩ 0 66
  exact h.2 (by decide) (by decide) (by decide) (by decide) (by decide)

/-! ### C7: what `PluggyFile.save` actually writes -/

theorem packU32_ok_iff (n : Nat) (out : List Nat) :
    packU32 n = .ok out ↔ n < 2 ^ 32 ∧ out = u32le n := by
  unfold packU32
  split <;> simp_all [eq_comm]

/-- Modelled from the spec (section 4.6 Save): the bytes C7 predicts -
magic, version, marker, count, entries, then the stored opaque trailer
verbatim, then a fresh CRC-32 over everything just written. -/
def pluggySaveSpec (encCS : List Nat → List Nat) (d : PluggyData) : List Nat :=
  let entries := (d.plugins.map
    (fun e => [e.1, e.2.1] ++ u32le (encCS e.2.2).length ++ encCS e.2.2)).flatten
  let text := pluggyTag ++ u32le d.version ++ [0] ++ u32le d.plugins.length ++
    entries ++ d.other
  text ++ u32le (crc32 text)

/-- The fixed part `save` writes before the trailer: magic, version,
marker byte, count, entry bytes. -/
def pluggySavePre (d : PluggyData) (es : List Nat) : List Nat :=
  pluggyTag ++ u32le d.version ++ [0] ++ u32le d.plugins.length ++ es

/-- The `text` buffer `save` actually builds when the trailer has at least
4 bytes: the trailer except its last 4 bytes, then the end-control offset
(which equals the total written length minus 4). -/
def pluggySaveText (d : PluggyData) (es : List Nat) : List Nat :=
  pluggySavePre d es ++ (d.other.take (d.other.length - 4) ++
    u32le ((pluggySavePre d es).length + (d.other.length - 4)))

/-- What `PluggyFile.save` actually produces, given the serialized entry
bytes `es`: the trailer's last 4 bytes are overwritten with the end-control
offset before the fresh CRC-32 is appended. -/
def pluggySaveShape (d : PluggyData) (es : List Nat) : List Nat :=
  pluggySaveText d es ++ u32le (crc32 (pluggySaveText d es))

def samplePluggyData : PluggyData := ⟨0x01020000, [], [9, 9, 9, 9]⟩

/-- C7 counterexample: for a loaded file whose 4-byte trailer is
`[9, 9, 9, 9]`, `save` does not write the stored trailer verbatim - the
seek(-4) / pack(tell) end-control step overwrites the trailer's last 4
bytes - so the output differs from the spec-predicted bytes. -/
theorem pluggy_save_not_trailer_verbatim :
    pluggyLoad samplePluggyFile = .ok samplePluggyData ∧
      pluggySave (fun b => b) samplePluggyData ≠
        .ok (pluggySaveSpec (fun b => b) samplePluggyData) := by decide

/-- C7 amended: `save` re-serializes magic, version, marker byte, count and
the entries, writes the stored trailer except for its final 4 bytes, which
are overwritten with the end-control offset (total length written so far
minus 4), then appends a fresh CRC-32 over everything just written; and
`mapMasters` never touches the trailer. -/
theorem pluggy_save_overwrites_end_control (encCS fold : List Nat → List Nat)
    (m : List (List Nat × List Nat)) (d : PluggyData) (es out : List Nat)
    (hes : pluggySaveEntries encCS d.plugins = .ok es)
    (hsave : pluggySave encCS d = .ok out) (h4 : 4 ≤ d.other.length) :
    out = pluggySaveShape d es ∧ (pluggyMapMasters fold m d).other = d.other := by
  refine ⟨?_, rfl⟩
  unfold pluggySave at hsave
  rcases (except_bind_ok _ _ _).mp hsave with ⟨v, hv, h1⟩
  rcases (packU32_ok_iff _ _).mp hv with ⟨hvlt, hveq⟩
  subst hveq
  rcases (except_bind_ok _ _ _).mp h1 with ⟨cnt, hcnt, h2⟩
  rcases (packU32_ok_iff _ _).mp hcnt with ⟨hclt, hceq⟩
  subst hceq
  rcases (except_bind_ok _ _ _).mp h2 with ⟨es2, hes2, h3⟩
  rw [hes] at hes2
  injection hes2 with hes3
  subst hes3
  dsimp only at h3
  rcases (except_bind_ok _ _ _).mp h3 with ⟨posB, hposB, h5⟩
  rcases (packU32_ok_iff _ _).mp hposB with ⟨hplt, hpeq⟩
  subst hpeq
  injection h5 with h6
  subst h6
  have hsplit : ∀ k : Nat, k ≤ d.other.length →
      (pluggyTag ++ u32le d.version ++ [0] ++ u32le d.plugins.length ++ es ++
        d.other).take
        ((pluggyTag ++ u32le d.version ++ [0] ++ u32le d.plugins.length ++ es).length
          + k) =
      (pluggyTag ++ u32le d.version ++ [0] ++ u32le d.plugins.length ++ es) ++
        d.other.take k := by
    intro k hk
    rw [List.append_assoc _ es d.other]
    rw [show pluggyTag ++ u32le d.version ++ [0] ++ u32le d.plugins.length ++
      (es ++ d.other) = (pluggyTag ++ u32le d.version ++ [0] ++
        u32le d.plugins.length ++ es) ++ d.other by simp [List.append_assoc]]
    rw [List.take_add, List.take_left, List.drop_left]
  have hlen0 : (pluggyTag ++ u32le d.version ++ [0] ++ u32le d.plugins.length ++ es
      ++ d.other).length =
      (pluggyTag ++ u32le d.version ++ [0] ++ u32le d.plugins.length ++ es).length
        + d.other.length := by
    simp [List.append_assoc]
    omega
  rw [hlen0]
  have harith : (pluggyTag ++ u32le d.version ++ [0] ++ u32le d.plugins.length ++
      es).length + d.other.length - 4 =
      (pluggyTag ++ u32le d.version ++ [0] ++ u32le d.plugins.length ++ es).length
        + (d.other.length - 4) := by omega
  rw [harith, hsplit (d.other.length - 4) (by omega)]
  unfold pluggySaveShape pluggySaveText pluggySavePre
  simp [List.append_assoc]

/-- Witness: the C7 theorem applied to `samplePluggyData` with the identity
codec and an empty rename map.  The saved bytes end in the end-control
offset 19 followed by the fresh CRC-32, not in the stored trailer
`[9, 9, 9, 9]`. -/
theorem pluggy_save_overwrites_end_control_witness :
    ([80, 108, 117, 103, 103, 121, 83, 97, 118, 101, 0, 0, 2, 1, 0, 0, 0, 0, 0,
        19, 0, 0, 0, 15, 247, 34, 253] : List Nat) =
        pluggySaveShape samplePluggyData [] ∧
      (pluggyMapMasters (fun b => b) [] samplePluggyData).other =
        samplePluggyData.other :=
  pluggy_save_overwrites_end_control (fun b => b) (fun b => b) []
    samplePluggyData []
    [80, 108, 117, 103, 103, 121, 83, 97, 118, 101, 0, 0, 2, 1, 0, 0, 0, 0, 0,
      19, 0, 0, 0, 15, 247, 34, 253]
    (by decide) (by decide) (by decide)

/-! ### C9: idempotence of the master rename -/

theorem find?_congr {a : Type} (p q : a → Bool) (l : List a)
    (h : ∀ x ∈ l, p x = q x) : l.find? p = l.find? q := by
  induction l with
  | nil => rfl
  | cons x l ih =>
    rw [List.find?_cons, List.find?_cons, h x (by simp)]
    split
    · rfl
    · exact ih (fun y hy => h y (by simp [hy]))

/-- `GPath` lookup is invariant under case folding of the probe (the dict
compares case-folded forms). -/
theorem lookupMaster_fold (fold : List Nat → List Nat)
    (m : List (List Nat × List Nat)) (hfold : ∀ b, fold (fold b) = fold b)
    (x : List Nat) : lookupMaster fold m (fold x) = lookupMaster fold m x := by
  unfold lookupMaster
  rw [find?_congr _ _ m (fun kv _ => by rw [hfold x])]

/-- If the map's values are not themselves keys, the result of one rename
lookup is never renamed again. -/
theorem lookupMaster_applyRename (fold : List Nat → List Nat)
    (m : List (List Nat × List Nat))
    (hvals : ∀ kv ∈ m, lookupMaster fold m kv.2 = none) (x : List Nat) :
    lookupMaster fold m (applyRename fold m x) = none := by
  unfold applyRename
  cases hx : lookupMaster fold m x with
  | none => simpa using hx
  | some v =>
    have hx2 := hx
    unfold lookupMaster at hx2
    rcases Option.map_eq_some'.mp hx2 with ⟨kv, hfind, hsnd⟩
    have hmem := List.mem_of_find?_eq_some hfind
    have := hvals kv hmem
    rw [hsnd] at this
    simpa using this

theorem applyRename_idem (fold : List Nat → List Nat)
    (m : List (List Nat × List Nat))
    (hvals : ∀ kv ∈ m, lookupMaster fold m kv.2 = none) (x : List Nat) :
    applyRename fold m (applyRename fold m x) = applyRename fold m x := by
  conv_lhs => rw [applyRename]
  rw [lookupMaster_applyRename fold m hvals x]
  rfl

theorem xseRewriteLoop_idem (fold : List Nat → List Nat)
    (m : List (List Nat × List Nat))
    (hvals : ∀ kv ∈ m, lookupMaster fold m kv.2 = none) :
    ∀ (k : Nat) (bs out : List Nat), bs.length ≤ k →
      xseRewriteLoop fold m bs = .ok out →
      xseRewriteLoop fold m out = .ok out := by
  intro k
  induction k with
  | zero =>
    intro bs out hlen h
    have hbs : bs = [] := List.length_eq_zero.mp (Nat.le_zero.mp hlen)
    subst hbs
    simp only [xseRewriteLoop] at h
    injection h with h2
    subst h2
    simp [xseRewriteLoop]
  | succ k ih =>
    intro bs out hlen h
    rcases bs with _ | ⟨b0, bs1⟩
    · simp only [xseRewriteLoop] at h
      injection h with h2
      subst h2
      simp [xseRewriteLoop]
    rcases bs1 with _ | ⟨b1, rest⟩
    · simp only [xseRewriteLoop] at h
      simp at h
    · simp only [xseRewriteLoop] at h
      by_cases hn : leVal [b0, b1] ≤ rest.length
      case neg =>
        rw [dif_neg hn] at h
        simp at h
      rw [dif_pos hn] at h
      by_cases hlt :
          (applyRename fold m (rest.take (leVal [b0, b1]))).length < 2 ^ 16
      case neg =>
        rw [if_neg hlt] at h
        simp at h
      rw [if_pos hlt, except_map_ok] at h
      rcases h with ⟨tail, htail, hout⟩
      subst hout
      have htail2 : xseRewriteLoop fold m tail = .ok tail := by
        apply ih (rest.drop (leVal [b0, b1])) tail ?_ htail
        simp only [List.length_cons, List.length_drop] at hlen ⊢
        omega
      have hcons : ∀ tl : List Nat,
          u16le (applyRename fold m (rest.take (leVal [b0, b1]))).length ++
            applyRename fold m (rest.take (leVal [b0, b1])) ++ tl =
          (applyRename fold m (rest.take (leVal [b0, b1]))).length % 256 ::
            (applyRename fold m (rest.take (leVal [b0, b1]))).length / 256 % 256 ::
            (applyRename fold m (rest.take (leVal [b0, b1])) ++ tl) := by
        intro tl
        simp [u16le]
      rw [hcons]
      simp only [xseRewriteLoop]
      have hLe : leVal
          [(applyRename fold m (rest.take (leVal [b0, b1]))).length % 256,
           (applyRename fold m (rest.take (leVal [b0, b1]))).length / 256 % 256] =
          (applyRename fold m (rest.take (leVal [b0, b1]))).length := by
        simpa [u16le] using
          leVal_u16le (applyRename fold m (rest.take (leVal [b0, b1]))).length hlt
      rw [hLe]
      have hn2 : (applyRename fold m (rest.take (leVal [b0, b1]))).length ≤
          (applyRename fold m (rest.take (leVal [b0, b1])) ++ tail).length := by
        simp
      rw [dif_pos hn2]
      rw [List.take_left, applyRename_idem fold m hvals, if_pos hlt,
        List.drop_left, htail2]
      rw [except_map_ok]
      exact ⟨tail, rfl, (hcons tail).symm⟩

theorem pluggyRewriteLoop_frame (fold : List Nat → List Nat)
    (m : List (List Nat × List Nat))
    (hfold : ∀ b, fold (fold b) = fold b)
    (hflen : ∀ b, (fold b).length = b.length)
    (e mo : Nat) (y tail : List Nat)
    (hy : lookupMaster fold m y = none) (hylt : y.length < 2 ^ 32)
    (htail : pluggyRewriteLoop fold m tail = .ok tail) :
    pluggyRewriteLoop fold m ([e, mo] ++ u32le y.length ++ fold y ++ tail) =
      .ok ([e, mo] ++ u32le y.length ++ fold y ++ tail) := by
  have hshape : [e, mo] ++ u32le y.length ++ fold y ++ tail =
      e :: mo :: (u32le y.length ++ (fold y ++ tail)) := by
    simp
  rw [hshape]
  rw [pluggyRewriteLoop]
  have h6 : 6 ≤ (e :: mo :: (u32le y.length ++ (fold y ++ tail))).length := by
    simp [u32le]
  rw [dif_pos h6]
  have hdrop2 : (e :: mo :: (u32le y.length ++ (fold y ++ tail))).drop 2 =
      u32le y.length ++ (fold y ++ tail) := rfl
  have htk4 : (u32le y.length ++ (fold y ++ tail)).take 4 = u32le y.length := by
    rw [show (4 : Nat) = (u32le y.length).length from (u32le_length y.length).symm,
      List.take_left]
  have hdrop6 : (e :: mo :: (u32le y.length ++ (fold y ++ tail))).drop 6 =
      fold y ++ tail := by
    have : (e :: mo :: (u32le y.length ++ (fold y ++ tail))).drop 6 =
        (u32le y.length ++ (fold y ++ tail)).drop 4 := rfl
    rw [this, show (4 : Nat) = (u32le y.length).length from
      (u32le_length y.length).symm, List.drop_left]
  rw [hdrop2, htk4, hdrop6, leVal_u32le y.length hylt]
  dsimp only
  have htky : (fold y ++ tail).take y.length = fold y := by
    rw [show y.length = (fold y).length from (hflen y).symm, List.take_left]
  have hdry : (fold y ++ tail).drop y.length = tail := by
    rw [show y.length = (fold y).length from (hflen y).symm, List.drop_left]
  rw [htky, hdry]
  have har : applyRename fold m (fold y) = fold y := by
    unfold applyRename
    rw [lookupMaster_fold fold m hfold, hy]
    rfl
  rw [har]
  have hlf : (fold y).length < 2 ^ 32 := by
    rw [hflen y]
    exact hylt
  rw [if_pos hlf, htail, except_map_ok]
  refine ⟨tail, rfl, ?_⟩
  simp [List.getD]
  rw [hflen y, hfold y]
  simp

theorem pluggyRewriteLoop_idem (fold : List Nat → List Nat)
    (m : List (List Nat × List Nat))
    (hvals : ∀ kv ∈ m, lookupMaster fold m kv.2 = none)
    (hfold : ∀ b, fold (fold b) = fold b)
    (hflen : ∀ b, (fold b).length = b.length) :
    ∀ (k : Nat) (bs out : List Nat), bs.length ≤ k →
      pluggyRewriteLoop fold m bs = .ok out →
      pluggyRewriteLoop fold m out = .ok out := by
  intro k
  induction k with
  | zero =>
    intro bs out hlen h
    have hbs : bs = [] := List.length_eq_zero.mp (Nat.le_zero.mp hlen)
    subst hbs
    simp only [pluggyRewriteLoop] at h
    injection h with h2
    subst h2
    simp [pluggyRewriteLoop]
  | succ k ih =>
    intro bs out hlen h
    rcases bs with _ | ⟨b, bs1⟩
    · simp only [pluggyRewriteLoop] at h
      injection h with h2
      subst h2
      simp [pluggyRewriteLoop]
    rw [pluggyRewriteLoop] at h
    by_cases h6 : 6 ≤ (b :: bs1).length
    case neg =>
      rw [dif_neg h6] at h
      simp at h
    rw [dif_pos h6] at h
    dsimp only at h
    by_cases hlt : (applyRename fold m
        ((List.drop 6 (b :: bs1)).take
          (leVal ((List.drop 2 (b :: bs1)).take 4)))).length < 2 ^ 32
    case neg =>
      rw [if_neg hlt] at h
      simp at h
    rw [if_pos hlt, except_map_ok] at h
    rcases h with ⟨tail, htail, hout⟩
    subst hout
    have htail2 : pluggyRewriteLoop fold m tail = .ok tail := by
      apply ih _ tail ?_ htail
      simp only [List.length_drop, List.length_cons] at hlen ⊢
      omega
    exact pluggyRewriteLoop_frame fold m hfold hflen _ _ _ tail
      (lookupMaster_applyRename fold m hvals _) hlt htail2
    simp

theorem chunkMapMaster_idem (kind : ChunkKind) (espmSet : List (List Nat))
    (fold : List Nat → List Nat) (m : List (List Nat × List Nat))
    (hvals : ∀ kv ∈ m, lookupMaster fold m kv.2 = none)
    (hfold : ∀ b, fold (fold b) = fold b)
    (hflen : ∀ b, (fold b).length = b.length)
    (c c2 : Chunk) (d : Int)
    (h : chunkMapMaster kind espmSet fold m c = .ok (c2, d)) :
    chunkMapMaster kind espmSet fold m c2 = .ok (c2, 0) := by
  cases kind with
  | base => rfl
  | xse =>
    unfold chunkMapMaster xseChunkMapMaster at h ⊢
    by_cases hmem : c.chunkType ∈ espmSet
    · rw [if_pos hmem] at h
      rcases hcd : c.chunkData with _ | ⟨b0, rest⟩
      · rw [hcd] at h
        simp at h
      · rw [hcd] at h
        rw [except_map_ok] at h
        rcases h with ⟨body, hloop, hpair⟩
        rw [Prod.mk.injEq] at hpair
        obtain ⟨hc2, hd⟩ := hpair
        subst hc2
        have hloop2 : xseRewriteLoop fold m body = .ok body :=
          xseRewriteLoop_idem fold m hvals rest.length rest body le_rfl hloop
        dsimp only
        rw [if_pos hmem]
        rw [except_map_ok]
        refine ⟨body, hloop2, ?_⟩
        rw [Prod.mk.injEq]
        exact ⟨rfl, by omega⟩
    · rw [if_neg hmem] at h
      injection h with h2
      rw [Prod.mk.injEq] at h2
      obtain ⟨hc, hd⟩ := h2
      subst hc
      rw [if_neg hmem]
  | pluggy =>
    unfold chunkMapMaster pluggyChunkMapMaster at h ⊢
    by_cases hone : leVal c.chunkType = 1
    · rw [if_pos hone] at h
      rw [except_map_ok] at h
      rcases h with ⟨body, hloop, hpair⟩
      rw [Prod.mk.injEq] at hpair
      obtain ⟨hc2, hd⟩ := hpair
      subst hc2
      have hloop2 : pluggyRewriteLoop fold m body = .ok body :=
        pluggyRewriteLoop_idem fold m hvals hfold hflen c.chunkData.length
          c.chunkData body le_rfl hloop
      dsimp only
      rw [if_pos hone]
      rw [except_map_ok]
      refine ⟨body, hloop2, ?_⟩
      rw [Prod.mk.injEq]
      exact ⟨rfl, by omega⟩
    · rw [if_neg hone] at h
      injection h with h2
      rw [Prod.mk.injEq] at h2
      obtain ⟨hc, hd⟩ := h2
      subst hc
      rw [if_neg hone]

theorem mapM_ok_of_mem {a b : Type} (f : a → Except PErr b) :
    ∀ (l : List a) (rs : List b), l.mapM f = .ok rs →
      ∀ r ∈ rs, ∃ x ∈ l, f x = .ok r := by
  intro l
  induction l with
  | nil =>
    intro rs h r hr
    rw [show (List.mapM f [] : Except PErr (List b)) = .ok [] from rfl] at h
    injection h with h2
    subst h2
    simp at hr
  | cons x l ih =>
    intro rs h r hr
    rw [List.mapM_cons] at h
    rcases (except_bind_ok _ _ _).mp h with ⟨y, hfx, h2⟩
    rcases (except_bind_ok _ _ _).mp h2 with ⟨ys, hmm, h3⟩
    rw [except_pure_ok] at h3
    subst h3
    rcases List.mem_cons.mp hr with hry | hry
    · exact ⟨x, by simp, by rw [← hry] at hfx; exact hfx⟩
    · rcases ih ys hmm r hry with ⟨x2, hx2, hfx2⟩
      exact ⟨x2, by simp [hx2], hfx2⟩

theorem foldlM_of_fixed (f : Chunk → Except PErr (Chunk × Int)) :
    ∀ (cs : List Chunk) (acc : List Chunk × Int),
      (∀ c ∈ cs, f c = .ok (c, 0)) →
      cs.foldlM (fun acc c => do
          let (c2, d) ← f c
          pure (acc.1 ++ [c2], acc.2 + d)) acc = .ok (acc.1 ++ cs, acc.2) := by
  intro cs
  induction cs with
  | nil =>
    intro acc hfix
    simp [List.foldlM_nil, pure, Except.pure]
  | cons c cs ih =>
    intro acc hfix
    rw [List.foldlM_cons, hfix c (by simp)]
    have hstep : (do
        let (c2, d) ← (Except.ok (c, (0 : Int)) : Except PErr (Chunk × Int))
        pure (acc.1 ++ [c2], acc.2 + d)) =
        (pure (acc.1 ++ [c], acc.2 + 0) : Except PErr (List Chunk × Int)) := rfl
    rw [show ∀ g : Chunk × Int → Except PErr (List Chunk × Int),
        ((Except.ok (c, (0 : Int)) : Except PErr (Chunk × Int)) >>= g) = g (c, 0)
      from fun g => rfl]
    have := ih (acc.1 ++ [c], acc.2 + 0) (fun x hx => hfix x (by simp [hx]))
    simpa [List.append_assoc] using this

theorem mapM_of_fixed {a : Type} (f : a → Except PErr a) :
    ∀ l : List a, (∀ x ∈ l, f x = .ok x) → l.mapM f = .ok l := by
  intro l
  induction l with
  | nil => intro h; rfl
  | cons x l ih =>
    intro h
    rw [List.mapM_cons, h x (by simp),
      show ∀ g : a → Except PErr (List a), ((Except.ok x : Except PErr a) >>= g)
        = g x from fun g => rfl,
      ih (fun y hy => h y (by simp [hy])),
      show ∀ g : List a → Except PErr (List a),
        ((Except.ok l : Except PErr (List a)) >>= g) = g l from fun g => rfl]
    rfl

theorem groupMapMaster_idem (xseSig : Nat) (pluggySig : Option Nat)
    (espmSet : List (List Nat)) (fold : List Nat → List Nat)
    (m : List (List Nat × List Nat))
    (hvals : ∀ kv ∈ m, lookupMaster fold m kv.2 = none)
    (hfold : ∀ b, fold (fold b) = fold b)
    (hflen : ∀ b, (fold b).length = b.length)
    (g g2 : PluginChunk)
    (h : groupMapMaster xseSig pluggySig espmSet fold m g = .ok g2) :
    groupMapMaster xseSig pluggySig espmSet fold m g2 = .ok g2 := by
  unfold groupMapMaster at h ⊢
  rcases (except_bind_ok _ _ _).mp h with ⟨⟨cs, total⟩, hfold2, hok⟩
  dsimp only at hok
  injection hok with hok2
  subst hok2
  rcases foldlM_rename_spec _ g.plugin_chunks ([], 0) (cs, total) hfold2
    with ⟨rs, hmapM, h1, h2⟩
  dsimp only at h1 h2
  rw [List.nil_append] at h1
  have hfix : ∀ c ∈ cs,
      chunkMapMaster (getPluginChunkType xseSig pluggySig g.plugin_signature)
        espmSet fold m c = .ok (c, 0) := by
    intro c hc
    rw [h1] at hc
    rcases List.mem_map.mp hc with ⟨r, hr, hrc⟩
    rcases mapM_ok_of_mem _ _ _ hmapM r hr with ⟨x, hx, hfx⟩
    have hidem := chunkMapMaster_idem
      (getPluginChunkType xseSig pluggySig g.plugin_signature) espmSet fold m
      hvals hfold hflen x r.1 r.2 hfx
    rw [hrc] at hidem
    exact hidem
  rw [except_bind_ok]
  refine ⟨(cs, 0), by simpa using foldlM_of_fixed _ cs ([], 0) hfix, ?_⟩
  dsimp only
  rw [Except.ok.injEq, PluginChunk.mk.injEq]
  refine ⟨rfl, rfl, by simp, rfl⟩

/-- C9: applying `map_masters` twice with a map whose values are not
themselves keys yields the same result as applying it once (same chunk
payloads, length fields, and group declared sizes); names not found in the
map pass through a rename unchanged.  The case-fold collaborator is
idempotent and length-preserving. -/
theorem map_masters_idempotent (xseSig : Nat) (pluggySig : Option Nat)
    (espmSet : List (List Nat)) (fold : List Nat → List Nat)
    (m : List (List Nat × List Nat))
    (hvals : ∀ kv ∈ m, lookupMaster fold m kv.2 = none)
    (hfold : ∀ b, fold (fold b) = fold b)
    (hflen : ∀ b, (fold b).length = b.length)
    (c c2 : XSECoSave)
    (hmap : map_masters xseSig pluggySig espmSet fold m c = .ok c2) :
    map_masters xseSig pluggySig espmSet fold m c2 = .ok c2 ∧
      ∀ name, lookupMaster fold m name = none →
        applyRename fold m name = name := by
  constructor
  · unfold map_masters at hmap ⊢
    rcases (except_bind_ok _ _ _).mp hmap with ⟨gs, hgs, hok⟩
    injection hok with hok2
    subst hok2
    rw [except_bind_ok]
    refine ⟨gs, ?_, rfl⟩
    apply mapM_of_fixed
    intro g2 hg2
    rcases mapM_ok_of_mem _ _ _ hgs g2 hg2 with ⟨g, hg, hfg⟩
    exact groupMapMaster_idem xseSig pluggySig espmSet fold m hvals hfold hflen
      g g2 hfg
  · intro name hnone
    unfold applyRename
    rw [hnone]
    rfl

/-- Witness: the C9 theorem applied to a concrete cosave holding
`sampleGroup`, with the identity case fold and the map `{[65] ↦ [66, 67]}`
(whose single value is not a key). -/
theorem map_masters_idempotent_witness :
    map_masters 0x1400 none [[83, 68, 79, 77]] (fun b => b) [([65], [66, 67])]
        ⟨⟨1, 2, 3, 4, 1⟩, [sampleGroupRenamed]⟩ =
      .ok ⟨⟨1, 2, 3, 4, 1⟩, [sampleGroupRenamed]⟩ ∧
      ∀ name, lookupMaster (fun b => b) [([65], [66, 67])] name = none →
        applyRename (fun b => b) [([65], [66, 67])] name = name := by
  have hmap : map_masters 0x1400 none [[83, 68, 79, 77]] (fun b => b)
      [([65], [66, 67])] ⟨⟨1, 2, 3, 4, 1⟩, [sampleGroup]⟩ =
      .ok ⟨⟨1, 2, 3, 4, 1⟩, [sampleGroupRenamed]⟩ := by
    simp [map_masters, List.mapM, List.mapM.loop, sampleGroup,
      sampleGroupRenamed, groupMapMaster, List.foldlM, chunkMapMaster,
      getPluginChunkType, xseChunkMapMaster, sample_rewrite_loop, Except.map,
      Bind.bind, Except.bind, pure, Except.pure]
  exact map_masters_idempotent 0x1400 none [[83, 68, 79, 77]] (fun b => b)
    [([65], [66, 67])] (by decide) (fun b => rfl) (fun b => rfl)
    ⟨⟨1, 2, 3, 4, 1⟩, [sampleGroup]⟩ ⟨⟨1, 2, 3, 4, 1⟩, [sampleGroupRenamed]⟩ hmap
